import Mathlib

/-!
Verification of the llm-router core against its specification.

The embedded code:
* `cleanModelResponse` — the response sanitizer (src, `cleanModelResponse`,
  lines 11–46 of the utils file), a pure string transformation.
* `llmRouter` — the routing policy (src, `llmRouter`, lines 144–209 of the
  chat route file).
* `POST` — the chat request handler / completion dispatcher (src, `POST`,
  lines 35–142 of the chat route file).

Strings are modelled as `List Char`; lengths that the source measures with
the JS `.length` property are measured here in UTF-16 code units
(`utf16Len`), which is what JS `.length` counts.
-/

set_option linter.constructorNameAsVariable false

namespace LlmRouter

/-- UTF-16 code units taken by one character (JS strings are UTF-16, and the
source's `.length` counts code units). -/
def u16 (c : Char) : Nat :=
  if c.toNat < 65536 then 1 else 2

/-- JS `String.prototype.length`: total UTF-16 code units. -/
def utf16Len : List Char → Nat
  | [] => 0
  | c :: cs => u16 c + utf16Len cs

/-- The character class matched by `\s` in a JS regular expression (also the
set trimmed by `String.prototype.trim`): space, tab, LF, VT, FF, CR, NBSP,
Ogham space, the U+2000–U+200A spaces, LS, PS, NNBSP, MMSP, ideographic
space and the BOM. -/
def jsWs (c : Char) : Bool :=
  c == ' ' || c == '\t' || c == '\n' || c.toNat == 11 || c.toNat == 12 ||
  c == '\r' || c.toNat == 160 || c.toNat == 5760 ||
  (decide (8192 ≤ c.toNat) && decide (c.toNat ≤ 8202)) ||
  c.toNat == 8232 || c.toNat == 8233 || c.toNat == 8239 || c.toNat == 8287 ||
  c.toNat == 12288 || c.toNat == 65279

/-- The character class `[.,\s]` used by the sanitizer's punctuation trim
(line 38 of the utils file). -/
def isDotCommaWs (c : Char) : Bool :=
  c == '.' || c == ',' || jsWs c

/-- One atom of an artifact pattern: a literal character (matched
case-insensitively, the regexes carry the `i` flag) or `\s+` (one or more
whitespace characters). -/
inductive PatAtom where
  | ch (c : Char)
  | ws
deriving DecidableEq

/-- Build a pattern from a plain string, reading a space as `\s+`.  Every
regex in the source is a literal word sequence whose only metacharacter is
`\s+` (the `short\.` pattern's `\.` is the literal dot). -/
def mkPattern (s : String) : List PatAtom :=
  s.data.map (fun c => if c = ' ' then PatAtom.ws else PatAtom.ch c)

/-- Try to match a pattern at the head of `l`; on success return the number
of characters consumed.  Literal characters compare case-insensitively
(ASCII folding, as JS regex `i`-canonicalisation does for these ASCII
patterns); `\s+` consumes the maximal whitespace run, which is the unique
possible match because every `\s+` in the source patterns is followed by a
non-whitespace literal. -/
def matchAtoms : List PatAtom → List Char → Option Nat
  | [], _ => some 0
  | PatAtom.ch _ :: _, [] => none
  | PatAtom.ch p :: ps, c :: cs =>
    if c.toLower = p.toLower then (matchAtoms ps cs).map (fun n => n + 1)
    else none
  | PatAtom.ws :: ps, l =>
    let k := (l.takeWhile jsWs).length
    if k = 0 then none
    else (matchAtoms ps (l.drop k)).map (fun n => n + k)

/-- Regex alternation: try the alternatives left to right, first success
wins (JS alternation is ordered, not longest-match). -/
def matchFirstAlt : List (List PatAtom) → List Char → Option Nat
  | [], _ => none
  | p :: ps, l =>
    match matchAtoms p l with
    | some n => some n
    | none => matchFirstAlt ps l

/-- JS `String.prototype.replace` with a global regex and empty replacement:
scan left to right, remove each non-overlapping match, continue after the
removed segment (the produced text is not rescanned).  Structured with a
fuel argument so the recursion is structural; every real match consumes at
least one character, so fuel equal to the input length never runs out. -/
def removeAllAltFuel (pats : List (List PatAtom)) : Nat → List Char → List Char
  | _, [] => []
  | 0, l => l
  | fuel + 1, c :: cs =>
    match matchFirstAlt pats (c :: cs) with
    | some (n + 1) => removeAllAltFuel pats fuel (cs.drop n)
    | _ => c :: removeAllAltFuel pats fuel cs

/-- Remove every occurrence of any of the alternatives from `l`. -/
def removeAllAlt (pats : List (List PatAtom)) (l : List Char) : List Char :=
  removeAllAltFuel pats l.length l

/-- Does any alternative match at some position of `l`? -/
def hasMatchAlt (pats : List (List PatAtom)) : List Char → Bool
  | [] => false
  | c :: cs => (matchFirstAlt pats (c :: cs)).isSome || hasMatchAlt pats cs

/-- The artifact regex list of the sanitizer (lines 17–28 of the utils
file), in source order; spaces in these strings stand for `\s+`. -/
def artifacts : List (List PatAtom) :=
  [mkPattern "analysis",
   mkPattern "assistantfinal",
   mkPattern "user wrote:",
   mkPattern "they are asking",
   mkPattern "so count:",
   mkPattern "so answer:",
   mkPattern "probably the assistant should",
   mkPattern "but maybe the user expects",
   mkPattern "just answer:",
   mkPattern "short."]

/-- Lines 30–32 of the utils file: apply each artifact regex in turn, each
as a global replace with the empty string. -/
def removeArtifacts (l : List Char) : List Char :=
  artifacts.foldl (fun cleaned p => removeAllAlt [p] cleaned) l

/-- JS `replace(/\s+/g, " ")`: every maximal whitespace run becomes one
space. -/
def collapseWs : List Char → List Char
  | [] => []
  | [c] => if jsWs c then [' '] else [c]
  | c :: d :: rest =>
    if jsWs c then
      if jsWs d then collapseWs (d :: rest)
      else ' ' :: collapseWs (d :: rest)
    else c :: collapseWs (d :: rest)

/-- Drop the maximal run of `p`-characters from the end of `l`. -/
def dropTrailing (p : Char → Bool) (l : List Char) : List Char :=
  (l.reverse.dropWhile p).reverse

/-- JS `String.prototype.trim`. -/
def trimWs (l : List Char) : List Char :=
  dropTrailing jsWs (l.dropWhile jsWs)

/-- JS `replace(/^[.,\s]+|[.,\s]+$/g, "")` (line 38 of the utils file):
strip the leading and the trailing run of dots, commas and whitespace. -/
def punctTrim (l : List Char) : List Char :=
  dropTrailing isDotCommaWs (l.dropWhile isDotCommaWs)

/-- The fully cleaned form of an input: artifact removal, whitespace
normalisation (collapse then trim, line 35), punctuation trim (line 38). -/
def cleanedForm (l : List Char) : List Char :=
  punctTrim (trimWs (collapseWs (removeArtifacts l)))

/-- `cleanModelResponse` (lines 11–46 of the utils file).  A falsy string in
JS is exactly the empty string, so `if (!response) return response` is the
first branch; the quality gate compares the cleaned JS length (UTF-16 code
units) with 10 and returns the original input when it is shorter. -/
def cleanModelResponse (response : String) : String :=
  if response = "" then response
  else
    let cleaned := removeArtifacts response.data
    let cleaned := trimWs (collapseWs cleaned)
    let cleaned := punctTrim cleaned
    if utf16Len cleaned < 10 then response else String.mk cleaned

/-! ## The routing policy (`llmRouter`, chat route file lines 144–209) -/

/-- The `{model, reasoning}` object returned by the routing policy. -/
structure RoutingDecision where
  model : String
  reasoning : String
deriving DecidableEq, Repr

/-- JS `v || d` for an optional string field of a parsed JSON object: the
default is taken when the field is absent (`undefined`) or the empty string
(both falsy). -/
def jsOrStr (v : Option String) (d : String) : String :=
  match v with
  | none => d
  | some s => if s = "" then d else s

/-- Outcome of `JSON.parse(responseContent)` followed by the `.model` /
`.reasoning` property reads.  `JSON.parse` is a JS builtin, modelled
abstractly by its result: `invalid` when the parse (or the property access,
e.g. on `null`) throws — both land in the same `catch` — and `obj` with the
two string fields, `none` for an absent field, when it yields an object. -/
inductive JsonParseOutcome where
  | invalid
  | obj (model : Option String) (reasoning : Option String)
deriving DecidableEq

/-- Behaviour of the classifier call
`await openai.chat.completions.create(...)` at line 179: the awaited
promise can reject (`callFailure`), resolve with a falsy
`choices[0].message.content` (`noContent`: `null` or `""`), or resolve with
non-empty content, which `JSON.parse` then processes. -/
inductive ClassifierOutcome where
  | callFailure
  | noContent
  | content (parsed : JsonParseOutcome)
deriving DecidableEq

/-- The error that escapes `llmRouter` when the classifier call itself
rejects: line 179 is not inside the `try` block (which starts at line 195
and only wraps the JSON parsing), so the rejection propagates. -/
inductive RouterError where
  | classifierCallFailed
deriving DecidableEq

/-- The default model hard-coded in every fallback branch. -/
def defaultModel : String := "openai/gpt-oss-20b:free"

/-- `llmRouter` (lines 144–209): an exception is modelled as `Except.error`.
Lines 187–193 handle falsy content; lines 195–208 parse the content, with
`parsedResponse.model || default` and `parsedResponse.reasoning || default`
on success and the catch-branch decision on a parse failure. -/
def llmRouter (response : ClassifierOutcome) :
    Except RouterError RoutingDecision :=
  match response with
  | ClassifierOutcome.callFailure => Except.error RouterError.classifierCallFailed
  | ClassifierOutcome.noContent =>
    Except.ok ⟨defaultModel, "Default fallback model for simple queries"⟩
  | ClassifierOutcome.content JsonParseOutcome.invalid =>
    Except.ok ⟨defaultModel, "Error in model selection, using default fallback"⟩
  | ClassifierOutcome.content (JsonParseOutcome.obj m r) =>
    Except.ok ⟨jsOrStr m defaultModel,
               jsOrStr r "Default fallback model for simple queries"⟩

/-! ## The chat request handler (`POST`, chat route file lines 35–142) -/

/-- Static performance metadata for one catalog model. -/
structure PerformanceInfo where
  throughput : String
  timeToFirstToken : String
  tokensPerSecond : String
  cost : String
deriving DecidableEq, Repr

/-- The `modelPerformance` catalog (lines 14–33). -/
def modelPerformance : List (String × PerformanceInfo) :=
  [("openai/gpt-oss-20b:free", ⟨"162 tps", "0.52s", "162", "Free"⟩),
   ("anthropic/claude-sonnet-4", ⟨"120 tps", "1.2s", "120", "$3/M input, $15/M output"⟩),
   ("openai/gpt-5-mini", ⟨"150 tps", "0.8s", "150", "$0.25/M input, $2/M output"⟩)]

/-- The catalog's keys. -/
def catalogKeys : List String := modelPerformance.map Prod.fst

/-- Lines 122–129: `modelPerformance[model] || {N/A ...}` — the lookup only
affects the reported metadata, not the model used for the call. -/
def lookupPerformance (model : String) : PerformanceInfo :=
  ((modelPerformance.find? (fun kv => kv.fst == model)).map Prod.snd).getD
    ⟨"N/A", "N/A", "N/A", "N/A"⟩

/-- The model the sanitizer is reserved for (lines 57, 74, 112). -/
def ossModel : String := "openai/gpt-oss-20b:free"

/-- The answer-marker phrases of the second-stage fallback (lines 81–86),
searched with the case-sensitive `indexOf`. -/
def answerPatterns : List (List Char) :=
  ["There are".data, "The answer is".data, "Answer:".data, "Final answer:".data]

/-- JS `String.prototype.indexOf`: index of the first occurrence of `sub`,
`none` for `-1`. -/
def indexOfSub (l sub : List Char) : Option Nat :=
  if sub.isPrefixOf l then some 0
  else
    match l with
    | [] => none
    | _ :: cs => (indexOfSub cs sub).map (fun i => i + 1)

/-- JS `String.prototype.includes`: case-sensitive substring test. -/
def includesSub (l sub : List Char) : Bool :=
  (indexOfSub l sub).isSome

/-- Lines 87–93: take the suffix of `reply` from the first occurrence of
the first answer pattern (in list order) that occurs; keep `reply` whole
when none does. -/
def firstAnswerSuffix (reply : List Char) : List Char :=
  match answerPatterns.findSome?
      (fun p => (indexOfSub reply p).map (fun i => reply.drop i)) with
  | some s => s
  | none => reply

/-- The single alternation regex of the fallback cleaning (line 97):
`/analysis|assistantfinal|user\s+wrote|they\s+are\s+asking/gi` — note
`user\s+wrote` here has no trailing colon, unlike the sanitizer's list. -/
def fallbackArtifacts : List (List PatAtom) :=
  [mkPattern "analysis", mkPattern "assistantfinal",
   mkPattern "user wrote", mkPattern "they are asking"]

/-- The second-stage fallback (lines 73–107), minus the `model === oss`
conjunct which `computeReply` keeps outside: if the reply is truthy and
still contains `"analysis"` or `"assistantfinal"` (case-sensitive
`includes`), cut at the first answer marker, strip the fallback artifact
regex, trim, and adopt the result only when strictly longer than 10. -/
def ossFallbackStage (reply : String) : String :=
  if reply ≠ "" ∧
     (includesSub reply.data "analysis".data ∨
      includesSub reply.data "assistantfinal".data) then
    let fallbackReply := firstAnswerSuffix reply.data
    let fallbackReply := trimWs (removeAllAlt fallbackArtifacts fallbackReply)
    if 10 < utf16Len fallbackReply then String.mk fallbackReply else reply
  else reply

/-- Lines 53–107: the reply returned to the caller.  `rawReply || ""`
replaces a `null` (or empty) downstream content by `""`; the sanitizer and
the second-stage fallback run only when the selected model is the GPT OSS
20B free model. -/
def computeReply (model : String) (rawReply : Option String) : String :=
  let reply := jsOrStr rawReply ""
  let reply := if model = ossModel then cleanModelResponse (jsOrStr rawReply "") else reply
  if model = ossModel then ossFallbackStage reply else reply

/-- The argument passed as `model:` to the downstream completions call
(line 46): the routing decision's model, unchanged. -/
def downstreamCallModel (modelSelection : RoutingDecision) : String :=
  modelSelection.model

/-- The JSON body the handler returns (lines 131–141). -/
structure ChatResponse where
  model : String
  reasoning : String
  performance : PerformanceInfo
  actualTimeToFirstToken : String
  reply : String
deriving DecidableEq, Repr

/-- `POST` (lines 35–142), with an explicit clock: `t0` is the value of
`Date.now()` at line 37 (right after `await req.json()`), and each awaited
upstream call advances the clock by its duration (`routerMs` for the
classifier call inside `llmRouter`, `completionMs` for the downstream
completion call).  An exception from `llmRouter` propagates — `POST` has no
try/catch.  `downstreamContent` is `response.choices[0].message.content` of
the downstream call (`none` for `null`). -/
def POST (t0 routerMs completionMs : Nat) (classifier : ClassifierOutcome)
    (downstreamContent : Option String) : Except RouterError ChatResponse :=
  let startTime := t0
  match llmRouter classifier with
  | Except.error e => Except.error e
  | Except.ok modelSelection =>
    let tAfterRouting := t0 + routerMs
    let model := downstreamCallModel modelSelection
    let reasoning := modelSelection.reasoning
    let endTime := tAfterRouting + completionMs
    let actualTimeToFirstToken := endTime - startTime
    let reply := computeReply model downstreamContent
    let performance := lookupPerformance model
    Except.ok
      { model := model
        reasoning := reasoning
        performance := performance
        actualTimeToFirstToken := toString actualTimeToFirstToken ++ "ms"
        reply := reply }

/-! ## Predicates used to state the pipeline invariants -/

/-- Characters the sanitizer's whitespace collapse can leave in place:
every whitespace character of the list is a plain space. -/
def wsOnlySpace (l : List Char) : Prop :=
  ∀ c ∈ l, jsWs c = true → c = ' '

/-- No two adjacent whitespace characters. -/
def noAdjWs : List Char → Bool
  | c :: d :: rest => !(jsWs c && jsWs d) && noAdjWs (d :: rest)
  | _ => true

/-! ## Helper lemmas -/

theorem one_le_u16 (c : Char) : 1 ≤ u16 c := by
  unfold u16; split <;> omega

theorem utf16Len_append (l₁ l₂ : List Char) :
    utf16Len (l₁ ++ l₂) = utf16Len l₁ + utf16Len l₂ := by
  induction l₁ with
  | nil => simp [utf16Len]
  | cons c cs ih => simp [utf16Len, ih]; omega

theorem utf16Len_reverse (l : List Char) : utf16Len l.reverse = utf16Len l := by
  induction l with
  | nil => rfl
  | cons c cs ih =>
    simp [List.reverse_cons, utf16Len_append, utf16Len, ih]; omega

theorem utf16Len_le_of_sublist {l₁ l₂ : List Char} (h : List.Sublist l₁ l₂) :
    utf16Len l₁ ≤ utf16Len l₂ := by
  induction h with
  | slnil => exact Nat.le_refl _
  | cons c _ ih => simp only [utf16Len]; omega
  | cons₂ c _ ih => simp only [utf16Len]; omega

theorem removeAllAltFuel_sublist (pats : List (List PatAtom)) :
    ∀ (fuel : Nat) (l : List Char), List.Sublist (removeAllAltFuel pats fuel l) l := by
  intro fuel
  induction fuel with
  | zero =>
    intro l
    cases l with
    | nil => exact List.Sublist.refl _
    | cons c cs => exact List.Sublist.refl _
  | succ n ih =>
    intro l
    cases l with
    | nil => exact List.Sublist.refl _
    | cons c cs =>
      simp only [removeAllAltFuel]
      cases hm : matchFirstAlt pats (c :: cs) with
      | none => exact List.Sublist.cons₂ c (ih cs)
      | some k =>
        cases k with
        | zero => exact List.Sublist.cons₂ c (ih cs)
        | succ m =>
          exact List.Sublist.cons c ((ih (cs.drop m)).trans (List.drop_sublist m cs))

theorem removeAllAlt_sublist (pats : List (List PatAtom)) (l : List Char) :
    List.Sublist (removeAllAlt pats l) l :=
  removeAllAltFuel_sublist pats l.length l

theorem removeArtifacts_utf16_le (l : List Char) :
    utf16Len (removeArtifacts l) ≤ utf16Len l := by
  suffices h : ∀ (ps : List (List PatAtom)) (l : List Char),
      utf16Len (ps.foldl (fun cleaned p => removeAllAlt [p] cleaned) l) ≤ utf16Len l by
    exact h artifacts l
  intro ps
  induction ps with
  | nil => intro l; exact Nat.le_refl _
  | cons p ps ih =>
    intro l
    calc utf16Len ((p :: ps).foldl (fun cleaned q => removeAllAlt [q] cleaned) l)
        ≤ utf16Len (removeAllAlt [p] l) := ih (removeAllAlt [p] l)
      _ ≤ utf16Len l := utf16Len_le_of_sublist (removeAllAlt_sublist [p] l)

theorem collapseWs_utf16_le (l : List Char) :
    utf16Len (collapseWs l) ≤ utf16Len l := by
  induction l with
  | nil => exact Nat.le_refl _
  | cons c cs ih =>
    have hsp : u16 ' ' = 1 := rfl
    have hc1 := one_le_u16 c
    cases cs with
    | nil =>
      simp only [collapseWs]
      by_cases hc : jsWs c
      · rw [if_pos hc]
        simp only [utf16Len]
        omega
      · rw [if_neg hc]
    | cons d rest =>
      simp only [collapseWs]
      by_cases hc : jsWs c
      · rw [if_pos hc]
        by_cases hd : jsWs d
        · rw [if_pos hd]
          simp only [utf16Len] at ih ⊢
          omega
        · rw [if_neg hd]
          simp only [utf16Len] at ih ⊢
          omega
      · rw [if_neg hc]
        simp only [utf16Len] at ih ⊢
        omega

theorem dropTrailing_utf16_le (p : Char → Bool) (l : List Char) :
    utf16Len (dropTrailing p l) ≤ utf16Len l := by
  unfold dropTrailing
  rw [utf16Len_reverse]
  calc utf16Len (l.reverse.dropWhile p) ≤ utf16Len l.reverse :=
        utf16Len_le_of_sublist (List.dropWhile_sublist p)
    _ = utf16Len l := utf16Len_reverse l

theorem trimWs_utf16_le (l : List Char) : utf16Len (trimWs l) ≤ utf16Len l := by
  unfold trimWs
  calc utf16Len (dropTrailing jsWs (l.dropWhile jsWs))
      ≤ utf16Len (l.dropWhile jsWs) := dropTrailing_utf16_le _ _
    _ ≤ utf16Len l := utf16Len_le_of_sublist (List.dropWhile_sublist jsWs)

theorem punctTrim_utf16_le (l : List Char) :
    utf16Len (punctTrim l) ≤ utf16Len l := by
  unfold punctTrim
  calc utf16Len (dropTrailing isDotCommaWs (l.dropWhile isDotCommaWs))
      ≤ utf16Len (l.dropWhile isDotCommaWs) := dropTrailing_utf16_le _ _
    _ ≤ utf16Len l := utf16Len_le_of_sublist (List.dropWhile_sublist isDotCommaWs)

theorem cleanedForm_utf16_le (l : List Char) :
    utf16Len (cleanedForm l) ≤ utf16Len l := by
  unfold cleanedForm
  calc utf16Len (punctTrim (trimWs (collapseWs (removeArtifacts l))))
      ≤ utf16Len (trimWs (collapseWs (removeArtifacts l))) := punctTrim_utf16_le _
    _ ≤ utf16Len (collapseWs (removeArtifacts l)) := trimWs_utf16_le _
    _ ≤ utf16Len (removeArtifacts l) := collapseWs_utf16_le _
    _ ≤ utf16Len l := removeArtifacts_utf16_le l

theorem cleanModelResponse_eq (response : String) :
    cleanModelResponse response =
      if response = "" then response
      else if utf16Len (cleanedForm response.data) < 10 then response
      else String.mk (cleanedForm response.data) := rfl

/-! ### Canonical-form lemmas for the whitespace pipeline -/

theorem noAdjWs_cons_inv {c d : Char} {rest : List Char}
    (h : noAdjWs (c :: d :: rest) = true) :
    (jsWs c && jsWs d) = false ∧ noAdjWs (d :: rest) = true := by
  simp only [noAdjWs, Bool.and_eq_true, Bool.not_eq_true'] at h
  exact h

theorem noAdjWs_cons_of_head? {c : Char} {X : List Char}
    (h1 : ∀ y, X.head? = some y → (jsWs c && jsWs y) = false)
    (h2 : noAdjWs X = true) : noAdjWs (c :: X) = true := by
  cases X with
  | nil => rfl
  | cons y ys =>
    simp only [noAdjWs, Bool.and_eq_true, Bool.not_eq_true']
    exact ⟨h1 y rfl, h2⟩

theorem noAdjWs_tail {c : Char} {cs : List Char}
    (h : noAdjWs (c :: cs) = true) : noAdjWs cs = true := by
  cases cs with
  | nil => rfl
  | cons d rest => exact (noAdjWs_cons_inv h).2

theorem noAdjWs_append_right {l₁ l₂ : List Char}
    (h : noAdjWs (l₁ ++ l₂) = true) : noAdjWs l₂ = true := by
  induction l₁ with
  | nil => exact h
  | cons c cs ih =>
    rw [List.cons_append] at h
    exact ih (noAdjWs_tail h)

theorem noAdjWs_append_left {l₁ l₂ : List Char}
    (h : noAdjWs (l₁ ++ l₂) = true) : noAdjWs l₁ = true := by
  induction l₁ with
  | nil => rfl
  | cons c cs ih =>
    cases cs with
    | nil => rfl
    | cons d rest =>
      rw [List.cons_append, List.cons_append] at h
      obtain ⟨hpair, hrest⟩ := noAdjWs_cons_inv h
      rw [← List.cons_append] at hrest
      have hr : noAdjWs (d :: rest) = true := ih hrest
      simp only [noAdjWs, Bool.and_eq_true, Bool.not_eq_true']
      exact ⟨hpair, hr⟩

theorem collapseWs_head? (c : Char) (cs : List Char) :
    (collapseWs (c :: cs)).head? = some (if jsWs c then ' ' else c) := by
  induction cs generalizing c with
  | nil => simp only [collapseWs]; split <;> rfl
  | cons d rest ih =>
    simp only [collapseWs]
    by_cases hc : jsWs c
    · rw [if_pos hc, if_pos hc]
      by_cases hd : jsWs d
      · rw [if_pos hd, ih d, if_pos hd]
      · rw [if_neg hd]; rfl
    · rw [if_neg hc, if_neg hc]; rfl

theorem collapseWs_wsOnlySpace (l : List Char) : wsOnlySpace (collapseWs l) := by
  induction l with
  | nil => intro c hc; cases hc
  | cons c cs ih =>
    cases cs with
    | nil =>
      intro a ha hws
      simp only [collapseWs] at ha
      by_cases hc : jsWs c
      · rw [if_pos hc] at ha
        simpa using ha
      · rw [if_neg hc] at ha
        simp only [List.mem_singleton] at ha
        subst ha; exact absurd hws hc
    | cons d rest =>
      intro a ha hws
      simp only [collapseWs] at ha
      by_cases hc : jsWs c
      · rw [if_pos hc] at ha
        by_cases hd : jsWs d
        · rw [if_pos hd] at ha
          exact ih a ha hws
        · rw [if_neg hd] at ha
          rcases List.mem_cons.mp ha with h | h
          · exact h
          · exact ih a h hws
      · rw [if_neg hc] at ha
        rcases List.mem_cons.mp ha with h | h
        · subst h; exact absurd hws hc
        · exact ih a h hws

theorem collapseWs_noAdjWs (l : List Char) : noAdjWs (collapseWs l) = true := by
  induction l with
  | nil => rfl
  | cons c cs ih =>
    cases cs with
    | nil =>
      simp only [collapseWs]
      split <;> rfl
    | cons d rest =>
      simp only [collapseWs]
      by_cases hc : jsWs c
      · rw [if_pos hc]
        by_cases hd : jsWs d
        · rw [if_pos hd]; exact ih
        · rw [if_neg hd]
          refine noAdjWs_cons_of_head? ?_ ih
          intro y hy
          rw [collapseWs_head?, if_neg hd] at hy
          have hyd : d = y := Option.some.inj hy
          subst hyd
          simp [hd]
      · rw [if_neg hc]
        refine noAdjWs_cons_of_head? ?_ ih
        intro y hy
        simp [hc]

theorem collapseWs_eq_self {l : List Char} (h1 : wsOnlySpace l)
    (h2 : noAdjWs l = true) : collapseWs l = l := by
  induction l with
  | nil => rfl
  | cons c cs ih =>
    cases cs with
    | nil =>
      simp only [collapseWs]
      by_cases hc : jsWs c
      · rw [if_pos hc, h1 c (List.mem_singleton_self c) hc]
      · rw [if_neg hc]
    | cons d rest =>
      obtain ⟨hpair, hrest⟩ := noAdjWs_cons_inv h2
      have h1' : wsOnlySpace (d :: rest) := fun a ha => h1 a (List.mem_cons_of_mem c ha)
      have ihr : collapseWs (d :: rest) = d :: rest := ih h1' hrest
      simp only [collapseWs]
      by_cases hc : jsWs c
      · have hd : ¬ jsWs d = true := by
          intro hd
          rw [hc, hd] at hpair
          simp at hpair
        rw [if_pos hc, if_neg hd, ihr, h1 c (List.mem_cons_self c _) hc]
      · rw [if_neg hc, ihr]

theorem head?_dropWhile {p : Char → Bool} {l : List Char} {c : Char}
    (h : (l.dropWhile p).head? = some c) : p c = false := by
  induction l with
  | nil => cases h
  | cons a as ih =>
    rw [List.dropWhile_cons] at h
    by_cases ha : p a
    · rw [if_pos ha] at h
      exact ih h
    · rw [if_neg ha] at h
      simp only [List.head?_cons, Option.some.injEq] at h
      subst h
      exact Bool.not_eq_true _ ▸ (by simpa using ha)

theorem dropTrailing_append (p : Char → Bool) (l : List Char) :
    dropTrailing p l ++ (l.reverse.takeWhile p).reverse = l := by
  unfold dropTrailing
  rw [← List.reverse_append, List.takeWhile_append_dropWhile, List.reverse_reverse]

theorem getLast?_dropTrailing {p : Char → Bool} {l : List Char} {c : Char}
    (h : (dropTrailing p l).getLast? = some c) : p c = false := by
  unfold dropTrailing at h
  rw [List.getLast?_reverse] at h
  exact head?_dropWhile h

theorem head?_dropTrailing {p : Char → Bool} {l : List Char} {c : Char}
    (h : (dropTrailing p l).head? = some c) : l.head? = some c := by
  have happ := dropTrailing_append p l
  cases hdt : dropTrailing p l with
  | nil => rw [hdt] at h; cases h
  | cons a t =>
    rw [hdt] at h happ
    simp only [List.head?_cons, Option.some.injEq] at h
    subst h
    rw [← happ]
    rfl

theorem dropWhile_eq_self_of_head {p : Char → Bool} {l : List Char}
    (h : ∀ c, l.head? = some c → p c = false) : l.dropWhile p = l := by
  cases l with
  | nil => rfl
  | cons a as =>
    rw [List.dropWhile_cons, if_neg]
    simp [h a rfl]

theorem dropTrailing_eq_self_of_getLast {p : Char → Bool} {l : List Char}
    (h : ∀ c, l.getLast? = some c → p c = false) : dropTrailing p l = l := by
  unfold dropTrailing
  rw [dropWhile_eq_self_of_head, List.reverse_reverse]
  intro c hc
  rw [List.head?_reverse] at hc
  exact h c hc

theorem dropTrailing_sublist (p : Char → Bool) (l : List Char) :
    List.Sublist (dropTrailing p l) l := by
  conv_rhs => rw [← dropTrailing_append p l]
  exact (dropTrailing p l).sublist_append_left _

theorem wsOnlySpace_of_sublist {l₁ l₂ : List Char}
    (h : List.Sublist l₁ l₂) (hw : wsOnlySpace l₂) : wsOnlySpace l₁ :=
  fun c hc => hw c (h.subset hc)

theorem noAdjWs_dropWhile {p : Char → Bool} {l : List Char}
    (h : noAdjWs l = true) : noAdjWs (l.dropWhile p) = true := by
  have happ : l.takeWhile p ++ l.dropWhile p = l :=
    List.takeWhile_append_dropWhile p l
  rw [← happ] at h
  exact noAdjWs_append_right h

theorem noAdjWs_dropTrailing {p : Char → Bool} {l : List Char}
    (h : noAdjWs l = true) : noAdjWs (dropTrailing p l) = true := by
  rw [← dropTrailing_append p l] at h
  exact noAdjWs_append_left h

theorem jsWs_of_isDotCommaWs_false {c : Char} (h : isDotCommaWs c = false) :
    jsWs c = false := by
  unfold isDotCommaWs at h
  simp only [Bool.or_eq_false_iff] at h
  exact h.2

theorem string_data_mk (l : List Char) : (String.mk l).data = l := rfl

theorem cleanedForm_def (l : List Char) :
    cleanedForm l = punctTrim (trimWs (collapseWs (removeArtifacts l))) := rfl

theorem trimWs_def (l : List Char) :
    trimWs l = dropTrailing jsWs (l.dropWhile jsWs) := rfl

theorem punctTrim_def (l : List Char) :
    punctTrim l = dropTrailing isDotCommaWs (l.dropWhile isDotCommaWs) := rfl

/-- The structure the trim / punctuation-trim tail of the pipeline
guarantees, given a whitespace-collapsed input. -/
theorem trim_punct_invariants {m : List Char}
    (hm1 : wsOnlySpace m) (hm2 : noAdjWs m = true) :
    wsOnlySpace (punctTrim (trimWs m)) ∧ noAdjWs (punctTrim (trimWs m)) = true ∧
    (∀ c, (punctTrim (trimWs m)).head? = some c → isDotCommaWs c = false) ∧
    (∀ c, (punctTrim (trimWs m)).getLast? = some c → isDotCommaWs c = false) := by
  rw [trimWs_def, punctTrim_def]
  have ht1 : wsOnlySpace (dropTrailing jsWs (m.dropWhile jsWs)) :=
    wsOnlySpace_of_sublist (dropTrailing_sublist _ _)
      (wsOnlySpace_of_sublist (List.dropWhile_sublist _) hm1)
  have ht2 : noAdjWs (dropTrailing jsWs (m.dropWhile jsWs)) = true :=
    noAdjWs_dropTrailing (noAdjWs_dropWhile hm2)
  refine ⟨?_, ?_, ?_, ?_⟩
  · exact wsOnlySpace_of_sublist (dropTrailing_sublist _ _)
      (wsOnlySpace_of_sublist (List.dropWhile_sublist _) ht1)
  · exact noAdjWs_dropTrailing (noAdjWs_dropWhile ht2)
  · intro c hc
    exact head?_dropWhile (head?_dropTrailing hc)
  · intro c hc
    exact getLast?_dropTrailing hc

/-- All the structure the sanitizer's pipeline guarantees of its output:
whitespace characters are plain single spaces, never adjacent, and neither
end carries a dot, comma or whitespace character. -/
theorem cleanedForm_invariants (l : List Char) :
    wsOnlySpace (cleanedForm l) ∧ noAdjWs (cleanedForm l) = true ∧
    (∀ c, (cleanedForm l).head? = some c → isDotCommaWs c = false) ∧
    (∀ c, (cleanedForm l).getLast? = some c → isDotCommaWs c = false) := by
  rw [cleanedForm_def]
  generalize removeArtifacts l = r
  exact trim_punct_invariants (collapseWs_wsOnlySpace r) (collapseWs_noAdjWs r)

/-- When the artifact removal does not touch `y`, the rest of the cleaning
pipeline fixes any string that already has the output structure. -/
theorem cleanedForm_fixed {y : List Char}
    (h1 : wsOnlySpace y) (h2 : noAdjWs y = true)
    (hh : ∀ c, y.head? = some c → isDotCommaWs c = false)
    (hl : ∀ c, y.getLast? = some c → isDotCommaWs c = false)
    (hart : removeArtifacts y = y) :
    cleanedForm y = y := by
  rw [cleanedForm_def, hart, collapseWs_eq_self h1 h2, trimWs_def,
    dropWhile_eq_self_of_head (fun c hc => jsWs_of_isDotCommaWs_false (hh c hc)),
    dropTrailing_eq_self_of_getLast
      (fun c hc => jsWs_of_isDotCommaWs_false (hl c hc)),
    punctTrim_def,
    dropWhile_eq_self_of_head hh, dropTrailing_eq_self_of_getLast hl]

/-! ### Artifact-removal identity lemmas -/

theorem removeAllAltFuel_of_no_match {pats : List (List PatAtom)} :
    ∀ (fuel : Nat) {l : List Char}, hasMatchAlt pats l = false →
      removeAllAltFuel pats fuel l = l := by
  intro fuel
  induction fuel with
  | zero =>
    intro l _
    cases l with
    | nil => rfl
    | cons c cs => rfl
  | succ n ih =>
    intro l h
    cases l with
    | nil => rfl
    | cons c cs =>
      simp only [hasMatchAlt, Bool.or_eq_false_iff] at h
      obtain ⟨h1, h2⟩ := h
      simp only [removeAllAltFuel]
      cases hm : matchFirstAlt pats (c :: cs) with
      | none => rw [ih h2]
      | some k => rw [hm] at h1; cases h1

theorem removeAllAlt_of_no_match {pats : List (List PatAtom)} {l : List Char}
    (h : hasMatchAlt pats l = false) : removeAllAlt pats l = l :=
  removeAllAltFuel_of_no_match l.length h

theorem removeArtifacts_of_no_match {l : List Char}
    (h : ∀ p ∈ artifacts, hasMatchAlt [p] l = false) :
    removeArtifacts l = l := by
  suffices hgen : ∀ (ps : List (List PatAtom)) (l : List Char),
      (∀ p ∈ ps, hasMatchAlt [p] l = false) →
      ps.foldl (fun cleaned p => removeAllAlt [p] cleaned) l = l by
    exact hgen artifacts l h
  intro ps
  induction ps with
  | nil => intro l _; rfl
  | cons p ps ih =>
    intro l h
    have hp : removeAllAlt [p] l = l :=
      removeAllAlt_of_no_match (h p (List.mem_cons_self p ps))
    simp only [List.foldl_cons, hp]
    exact ih l (fun q hq => h q (List.mem_cons_of_mem p hq))

/-- The sanitizer fixes any string that already carries the pipeline's
output structure, survives the gate, and is untouched by artifact
removal. -/
theorem clean_mk_fixed {Y : List Char}
    (h10 : 10 ≤ utf16Len Y)
    (h1 : wsOnlySpace Y) (h2 : noAdjWs Y = true)
    (hh : ∀ c, Y.head? = some c → isDotCommaWs c = false)
    (hl : ∀ c, Y.getLast? = some c → isDotCommaWs c = false)
    (hrem : removeArtifacts Y = Y) :
    cleanModelResponse (String.mk Y) = String.mk Y := by
  have hfix : cleanedForm Y = Y := cleanedForm_fixed h1 h2 hh hl hrem
  have hne : String.mk Y ≠ "" := by
    intro h
    have hdata := congrArg String.data h
    have hemp : ("" : String).data = [] := rfl
    rw [string_data_mk, hemp] at hdata
    rw [hdata] at h10
    exact absurd h10 (by decide)
  rw [cleanModelResponse_eq, string_data_mk, hfix, if_neg hne,
    if_neg (Nat.not_lt.mpr h10)]

/-! ## The claims -/

/-- Claim C10: the sanitizer never lengthens its input — the cleaned result
(in UTF-16 units, as JS measures string length) is never longer than the
original. -/
theorem clean_never_lengthens (x : String) :
    utf16Len (cleanModelResponse x).data ≤ utf16Len x.data := by
  rw [cleanModelResponse_eq]
  by_cases hx : x = ""
  · rw [if_pos hx]
  · rw [if_neg hx]
    by_cases hlen : utf16Len (cleanedForm x.data) < 10
    · rw [if_pos hlen]
    · rw [if_neg hlen, string_data_mk]
      exact cleanedForm_utf16_le x.data

/-- Claim C2, counterexample: `"analanalysisysis is here today"` has a
cleaned form of length 22 (≥ 10), yet cleaning is not idempotent on it —
removing the inner `"analysis"` splices the surrounding halves into a new
`"analysis"`, which only the second pass removes: the first clean gives
`"analysis is here today"`, the second `"is here today"`. -/
theorem clean_not_idempotent_cex :
    10 ≤ utf16Len (cleanedForm ("analanalysisysis is here today").data) ∧
    cleanModelResponse (cleanModelResponse "analanalysisysis is here today") ≠
      cleanModelResponse "analanalysisysis is here today" := by decide

/-- Claim C2, amended: `clean` is idempotent on every input whose cleaned
form has length ≥ 10 and contains no residual occurrence of an artifact
pattern (single-pass removal can splice a new occurrence together; when it
does not, the cleaned form is a fixed point). -/
theorem clean_idempotent_no_residual_artifacts (x : String)
    (h10 : 10 ≤ utf16Len (cleanedForm x.data))
    (hart : ∀ p ∈ artifacts, hasMatchAlt [p] (cleanedForm x.data) = false) :
    cleanModelResponse (cleanModelResponse x) = cleanModelResponse x := by
  have hx : x ≠ "" := by
    intro h
    subst h
    exact absurd h10 (by decide)
  have hclean : cleanModelResponse x = String.mk (cleanedForm x.data) := by
    rw [cleanModelResponse_eq, if_neg hx, if_neg (Nat.not_lt.mpr h10)]
  rw [hclean]
  obtain ⟨h1, h2, hh, hl⟩ := cleanedForm_invariants x.data
  exact clean_mk_fixed h10 h1 h2 hh hl (removeArtifacts_of_no_match hart)

/-- Claim C2, witness for the amended theorem: an artifact-free input of
length 20. -/
theorem clean_idempotent_no_residual_artifacts_witness :
    cleanModelResponse (cleanModelResponse "hello there everyone") =
      cleanModelResponse "hello there everyone" :=
  clean_idempotent_no_residual_artifacts "hello there everyone"
    (by decide) (by decide)

/-- Claim C1, counterexample: the routing policy does raise to its caller
when the classifier HTTP call itself fails — the `await` at line 179 is not
inside the `try` block, so the rejection escapes `llmRouter` instead of
resolving to the default decision. -/
theorem llmRouter_raises_on_call_failure_cex :
    llmRouter ClassifierOutcome.callFailure =
      Except.error RouterError.classifierCallFailed := rfl

/-- Claim C1, amended: whenever the classifier call itself resolves —
whatever its content (none, unparsable, or parsed) — `llmRouter` returns a
`RoutingDecision` and raises nothing; only a failure of the HTTP call
itself propagates. -/
theorem llmRouter_returns_decision_when_resolved
    (r : ClassifierOutcome) (h : r ≠ ClassifierOutcome.callFailure) :
    ∃ d, llmRouter r = Except.ok d := by
  cases r with
  | callFailure => exact absurd rfl h
  | noContent => exact ⟨_, rfl⟩
  | content p =>
    cases p with
    | invalid => exact ⟨_, rfl⟩
    | obj m rsn => exact ⟨_, rfl⟩

/-- Claim C1, witness for the amended theorem at the resolved-with-no-content
outcome. -/
theorem llmRouter_returns_decision_when_resolved_witness :
    ∃ d, llmRouter ClassifierOutcome.noContent = Except.ok d :=
  llmRouter_returns_decision_when_resolved ClassifierOutcome.noContent
    (by intro h; exact ClassifierOutcome.noConfusion h)

/-- Claim C5, counterexample: for classifier content that is valid JSON but
lacks the `model` field (here the object with only
`reasoning = "because"`), the routing policy does not return the
`"Error in model selection, using default fallback"` decision — it keeps
the parsed reasoning and only defaults the model. -/
theorem missing_model_field_cex :
    llmRouter (ClassifierOutcome.content (JsonParseOutcome.obj none (some "because"))) =
      Except.ok ⟨defaultModel, "because"⟩ ∧
    RoutingDecision.mk defaultModel "because" ≠
      RoutingDecision.mk defaultModel "Error in model selection, using default fallback" := by
  exact ⟨rfl, by decide⟩

/-- Claim C5, amended: content that is non-empty but not valid JSON yields
the decision `{model: default, reasoning: "Error in model selection, using
default fallback"}`; content that is valid JSON but lacks `model` yields
the default model with the parsed reasoning (or `"Default fallback model
for simple queries"` when the reasoning is also missing or empty), not the
error reasoning. -/
theorem parse_failure_and_missing_model_decisions :
    llmRouter (ClassifierOutcome.content JsonParseOutcome.invalid) =
      Except.ok ⟨defaultModel, "Error in model selection, using default fallback"⟩ ∧
    ∀ rsn, llmRouter (ClassifierOutcome.content (JsonParseOutcome.obj none rsn)) =
      Except.ok ⟨defaultModel, jsOrStr rsn "Default fallback model for simple queries"⟩ :=
  ⟨rfl, fun _ => rfl⟩

/-- Claim C3, counterexample: when the classifier returns the unrecognized
model id `"bogus/model"`, the routing policy passes it through and the
dispatcher issues the downstream call with that very id — it is not a
catalog key and no default is substituted before the call (only the
performance metadata falls back to N/A). -/
theorem unrecognized_model_passthrough_cex :
    (POST 0 1 1
        (ClassifierOutcome.content (JsonParseOutcome.obj (some "bogus/model") (some "r")))
        (some "hi")).map (fun r => r.model) = Except.ok "bogus/model" ∧
    downstreamCallModel ⟨"bogus/model", "r"⟩ = "bogus/model" ∧
    "bogus/model" ∉ catalogKeys ∧
    "bogus/model" ≠ defaultModel := by
  refine ⟨rfl, rfl, by decide, by decide⟩

/-- Claim C3, amended: the dispatcher always uses the routing decision's
model id for the downstream call, unchanged; when that id is not a catalog
key, no default model is substituted — only the reported performance
metadata falls back to the all-N/A record. -/
theorem dispatcher_no_default_substitution (modelSelection : RoutingDecision) :
    downstreamCallModel modelSelection = modelSelection.model ∧
    (modelSelection.model ∉ catalogKeys →
      lookupPerformance modelSelection.model = ⟨"N/A", "N/A", "N/A", "N/A"⟩) := by
  refine ⟨rfl, fun h => ?_⟩
  simp only [catalogKeys, modelPerformance, List.map_cons, List.map_nil,
    List.mem_cons, List.not_mem_nil, or_false, not_or] at h
  obtain ⟨h1, h2, h3⟩ := h
  have b1 : ("openai/gpt-oss-20b:free" == modelSelection.model) = false :=
    beq_eq_false_iff_ne.mpr (fun e => h1 e.symm)
  have b2 : ("anthropic/claude-sonnet-4" == modelSelection.model) = false :=
    beq_eq_false_iff_ne.mpr (fun e => h2 e.symm)
  have b3 : ("openai/gpt-5-mini" == modelSelection.model) = false :=
    beq_eq_false_iff_ne.mpr (fun e => h3 e.symm)
  simp [lookupPerformance, modelPerformance, List.find?, b1, b2, b3]

/-- Claim C3, witness for the amended theorem at an unrecognized model id. -/
theorem dispatcher_no_default_substitution_witness :
    downstreamCallModel ⟨"bogus/x", "r"⟩ = "bogus/x" ∧
    ("bogus/x" ∉ catalogKeys →
      lookupPerformance "bogus/x" = ⟨"N/A", "N/A", "N/A", "N/A"⟩) :=
  dispatcher_no_default_substitution ⟨"bogus/x", "r"⟩

/-- Claim C4, counterexample: with a routing call taking 5 ms and a
downstream completion call taking 7 ms, the handler reports 12 ms — the
start timestamp is taken at line 37, before the routing call, so the
measured duration is not the downstream call alone. -/
theorem elapsed_includes_routing_cex :
    (POST 0 5 7 ClassifierOutcome.noContent (some "hello")).map
        (fun r => r.actualTimeToFirstToken) = Except.ok "12ms" ∧
    ("12ms" : String) ≠ "7ms" := by
  refine ⟨rfl, by decide⟩

/-- Claim C4, amended: the dispatcher records its start timestamp right
after reading the request body and before the routing call, records the end
timestamp after the downstream call resolves, and reports
`elapsedMs = end − start`, so the measured duration covers the routing call
plus the downstream completion call. -/
theorem elapsed_covers_routing_and_completion
    (t0 routerMs completionMs : Nat) (classifier : ClassifierOutcome)
    (downstreamContent : Option String) (d : RoutingDecision)
    (h : llmRouter classifier = Except.ok d) :
    (POST t0 routerMs completionMs classifier downstreamContent).map
      (fun r => r.actualTimeToFirstToken) =
      Except.ok (toString (routerMs + completionMs) ++ "ms") := by
  have harith : t0 + routerMs + completionMs - t0 = routerMs + completionMs := by omega
  simp [POST, h, Except.map, harith]

/-- Claim C4, witness for the amended theorem at concrete durations. -/
theorem elapsed_covers_routing_and_completion_witness :
    (POST 3 5 7 ClassifierOutcome.noContent (some "hello")).map
      (fun r => r.actualTimeToFirstToken) = Except.ok (toString (5 + 7) ++ "ms") :=
  elapsed_covers_routing_and_completion 3 5 7 ClassifierOutcome.noContent
    (some "hello") ⟨defaultModel, "Default fallback model for simple queries"⟩ rfl

/-- Claim C6: the sanitizer runs on the downstream reply exactly when the
selected model is `"openai/gpt-oss-20b:free"`; for that model the reply is
the sanitized (and possibly fallback-cleaned) text, and for every other
model the reply is the raw downstream content unmodified, with `null`
replaced by the empty string. -/
theorem sanitizer_applied_iff_oss_model (model : String) (rawReply : Option String) :
    (model ≠ ossModel → computeReply model rawReply = jsOrStr rawReply "") ∧
    computeReply ossModel rawReply =
      ossFallbackStage (cleanModelResponse (jsOrStr rawReply "")) := by
  constructor
  · intro h
    simp [computeReply, h]
  · simp [computeReply]

/-- Claim C6, witness at a non-OSS model and at the OSS model's shape. -/
theorem sanitizer_applied_iff_oss_model_witness :
    computeReply "anthropic/claude-sonnet-4" (some "analysis hello.") =
      "analysis hello." := by
  have h := (sanitizer_applied_iff_oss_model "anthropic/claude-sonnet-4"
    (some "analysis hello.")).1 (by decide)
  simpa [jsOrStr] using h

/-- Claim C7: whenever the cleaned form of the input is shorter than 10
UTF-16 units, the sanitizer returns the original input unchanged, not the
truncated cleaned form. -/
theorem clean_returns_original_when_short (x : String)
    (h : utf16Len (cleanedForm x.data) < 10) :
    cleanModelResponse x = x := by
  rw [cleanModelResponse_eq]
  by_cases hx : x = ""
  · simp [hx]
  · simp [hx, if_pos h]

/-- Claim C7, witness: `"short."` cleans to the empty string, so the
original is returned. -/
theorem clean_returns_original_when_short_witness :
    cleanModelResponse "short." = "short." :=
  clean_returns_original_when_short "short." (by decide)

/-- Claim C9: the sanitizer returns either exactly its input or a modified
string of length (UTF-16 units, as JS measures it) at least 10. -/
theorem clean_original_or_length_ge_ten (x : String) :
    cleanModelResponse x = x ∨ 10 ≤ utf16Len (cleanModelResponse x).data := by
  rw [cleanModelResponse_eq]
  by_cases hx : x = ""
  · left; simp [hx]
  · by_cases hlen : utf16Len (cleanedForm x.data) < 10
    · left; simp [hx, hlen]
    · right; simp [hx, hlen, String.mk]
      omega

/-- Claim C8: when the classifier call succeeds but returns no content, the
routing policy returns exactly the default decision with the
`"Default fallback model for simple queries"` reasoning. -/
theorem no_content_yields_default_decision :
    llmRouter ClassifierOutcome.noContent =
      Except.ok ⟨"openai/gpt-oss-20b:free",
                 "Default fallback model for simple queries"⟩ := rfl

end LlmRouter
